import Mathlib

/-!
Verification of `NKI_get_stage_coordinates_to_log_window.py`.

The script opens an image file through an external metadata reader,
determines a series count (optionally overridden by the `nrTiles`
parameter), closes the reader, reads the plane-0 X/Y stage positions of
each series from the populated metadata store, and logs each value,
X before Y, in ascending series order.

We embed the script shallowly.  Metadata values are represented by their
already-rendered string form (the script logs `str(value)`, so the
sequence of log lines is exactly the sequence of rendered values).  A
metadata accessor returns `Option String`: `none` models the Java-side
failure (index out of range, or a missing/null field hit by `.value()`).
The run of the script is modelled as a trace of events, so that ordering
properties (reader closed before metadata reads, all reads before the
first log line) and partial-output properties can be stated.
-/

/-- The OME-XML metadata store populated by `reader.setId`.
`getPlanePositionX i p` is the X stage position of plane `p` of series
`i` (rendered as the string the script would log); `none` models an
out-of-range series index or a missing/null position field. -/
structure OMEMeta where
  getPlanePositionX : Nat → Nat → Option String
  getPlanePositionY : Nat → Nat → Option String

/-- A model of the input file as seen through the external reader:
whether `reader.setId(file)` succeeds, the native series count returned
by `reader.getSeriesCount()`, and the metadata store populated by the
open step. -/
structure FileModel where
  openable : Bool
  nativeSeriesCount : Nat
  meta : OMEMeta

/-- Observable events of a run of the script. -/
inductive Event where
  | openFile : Event
  | closeReader : Event
  | readPosX : Nat → Nat → Event
  | readPosY : Nat → Nat → Event
  | logLine : String → Event
deriving DecidableEq, Repr

/-- `seriesCount = reader.getSeriesCount()`, then
`if nrTiles != -1: seriesCount = nrTiles` (lines 17 and 21-22). -/
def effectiveSeriesCount (native : Nat) (nrTiles : Int) : Int :=
  if nrTiles ≠ -1 then nrTiles else (native : Int)

/-- Python's `range(n)` for a possibly negative `n`: empty when `n ≤ 0`. -/
def pyRange (n : Int) : List Nat := List.range n.toNat

/-- One list comprehension
`[(get(i,0)).value() for i in idxs]` (lines 24-25): reads the plane-0
position of each listed series in order, recording a read event per
attempt, and stops at the first failing read.  Returns the trace of read
events together with the collected values (`none` if some read failed). -/
def readPositions (get : Nat → Nat → Option String) (mk : Nat → Nat → Event) :
    List Nat → List Event × Option (List String)
  | [] => ([], some [])
  | i :: rest =>
    match get i 0 with
    | none => ([mk i 0], none)
    | some v =>
      let p := readPositions get mk rest
      (mk i 0 :: p.1, p.2.map fun vs => v :: vs)

/-- The final loop (lines 28-30): for each `i`, log `posX[i]` then
`posY[i]`. -/
def logPairs (posX posY : List String) : List Nat → List Event
  | [] => []
  | i :: rest =>
    Event.logLine (posX.getD i "") :: Event.logLine (posY.getD i "") ::
      logPairs posX posY rest

/-- The whole script: open the file (failing there if it is unreadable),
take the native series count, override it with `nrTiles` unless
`nrTiles = -1`, close the reader, read the `posX` comprehension, then
the `posY` comprehension (each aborting the run at the first failing
read), and finally log `posX[i]`, `posY[i]` for each `i`.  Returns the
event trace and whether the run completed without an error. -/
def report (f : FileModel) (nrTiles : Int) : List Event × Bool :=
  if f.openable then
    let idxs := pyRange (effectiveSeriesCount f.nativeSeriesCount nrTiles)
    let rx := readPositions f.meta.getPlanePositionX Event.readPosX idxs
    match rx.2 with
    | none => ([Event.openFile, Event.closeReader] ++ rx.1, false)
    | some posX =>
      let ry := readPositions f.meta.getPlanePositionY Event.readPosY idxs
      match ry.2 with
      | none => ([Event.openFile, Event.closeReader] ++ rx.1 ++ ry.1, false)
      | some posY =>
        ([Event.openFile, Event.closeReader] ++ rx.1 ++ ry.1 ++
          logPairs posX posY idxs, true)
  else ([], false)

/-- Project a log line out of an event. -/
def isLog : Event → Option String
  | Event.logLine s => some s
  | _ => none

/-- Whether an event is a metadata-value read. -/
def isRead : Event → Bool
  | Event.readPosX _ _ => true
  | Event.readPosY _ _ => true
  | _ => false

/-- The log lines emitted by a run, in order. -/
def logLines (f : FileModel) (nrTiles : Int) : List String :=
  (report f nrTiles).1.filterMap isLog

/-- The metadata store holds positions for the first `N` series:
each series `i < N` has plane-0 X and Y values `xs i` and `ys i`. -/
def holdsPositions (m : OMEMeta) (N : Nat) (xs ys : Nat → String) : Prop :=
  ∀ i, i < N →
    m.getPlanePositionX i 0 = some (xs i) ∧ m.getPlanePositionY i 0 = some (ys i)

/-- The fixed synthetic metadata store of the spec's example: series
`0, 1, 2` carry plane-0 positions `(1.0, 2.0)`, `(3.0, 4.0)`,
`(5.0, 6.0)`; any other `(series, plane)` field is absent. -/
def demoMeta : OMEMeta where
  getPlanePositionX := fun i p =>
    if p = 0 then
      match i with
      | 0 => some "1.0"
      | 1 => some "3.0"
      | 2 => some "5.0"
      | _ => none
    else none
  getPlanePositionY := fun i p =>
    if p = 0 then
      match i with
      | 0 => some "2.0"
      | 1 => some "4.0"
      | 2 => some "6.0"
      | _ => none
    else none

/-- An openable file with native series count 3 and the synthetic
metadata store `demoMeta`. -/
def demoFile : FileModel where
  openable := true
  nativeSeriesCount := 3
  meta := demoMeta

/-- A path the reader cannot open: `reader.setId` fails. -/
def badFile : FileModel where
  openable := false
  nativeSeriesCount := 0
  meta := demoMeta

/-- An openable three-series file whose plane-0 Y position of series 1
is missing (a null metadata field), while every X position is present. -/
def failMeta : OMEMeta where
  getPlanePositionX := fun i p =>
    if p = 0 then
      match i with
      | 0 => some "1.0"
      | 1 => some "3.0"
      | 2 => some "5.0"
      | _ => none
    else none
  getPlanePositionY := fun i p =>
    if p = 0 then
      match i with
      | 0 => some "2.0"
      | 2 => some "6.0"
      | _ => none
    else none

/-- The openable file carrying `failMeta`. -/
def failFile : FileModel where
  openable := true
  nativeSeriesCount := 3
  meta := failMeta

theorem readPositions_all (get : Nat → Nat → Option String)
    (mk : Nat → Nat → Event) (v : Nat → String) (l : List Nat)
    (h : ∀ i ∈ l, get i 0 = some (v i)) :
    readPositions get mk l = (l.map fun i => mk i 0, some (l.map v)) := by
  induction l with
  | nil => rfl
  | cons i rest ih =>
    have hi : get i 0 = some (v i) := h i (List.mem_cons_self i rest)
    have hrest := ih fun j hj => h j (List.mem_cons_of_mem i hj)
    simp [readPositions, hi, hrest]

theorem readPositions_fail (get : Nat → Nat → Option String)
    (mk : Nat → Nat → Event) (l : List Nat)
    (h : ∃ i ∈ l, get i 0 = none) :
    (readPositions get mk l).2 = none := by
  induction l with
  | nil => simp at h
  | cons i rest ih =>
    rcases h with ⟨j, hj, hnone⟩
    rcases List.mem_cons.mp hj with rfl | hmem
    · simp [readPositions, hnone]
    · cases hget : get i 0 with
      | none => simp [readPositions, hget]
      | some v => simp [readPositions, hget, ih ⟨j, hmem, hnone⟩]

theorem readPositions_no_log (get : Nat → Nat → Option String)
    (mk : Nat → Nat → Event) (l : List Nat)
    (hmk : ∀ i p, isLog (mk i p) = none) :
    (readPositions get mk l).1.filterMap isLog = [] := by
  induction l with
  | nil => rfl
  | cons i rest ih =>
    cases hget : get i 0 with
    | none => simp [readPositions, hget, hmk]
    | some v => simp [readPositions, hget, hmk, ih]

theorem logPairs_filterMap (px py : List String) (l : List Nat) :
    (logPairs px py l).filterMap isLog =
      l.flatMap fun i => [px.getD i "", py.getD i ""] := by
  induction l with
  | nil => rfl
  | cons i rest ih => simp [logPairs, isLog, ih]

theorem getD_map_range (xs : Nat → String) (n i : Nat) (hi : i < n) :
    ((List.range n).map xs).getD i "" = xs i := by
  rw [List.getD_eq_getElem?_getD, List.getElem?_map, List.getElem?_range hi]
  rfl

/-- Core run lemma: when the file opens and every series index in the
effective range has both plane-0 positions, the run succeeds and its
trace is: open, close, the X reads in order, the Y reads in order, then
the interleaved log lines. -/
theorem report_ok (f : FileModel) (nrTiles : Int) (xs ys : Nat → String)
    (hopen : f.openable = true)
    (h : ∀ i ∈ pyRange (effectiveSeriesCount f.nativeSeriesCount nrTiles),
        f.meta.getPlanePositionX i 0 = some (xs i) ∧
        f.meta.getPlanePositionY i 0 = some (ys i)) :
    report f nrTiles =
      ([Event.openFile, Event.closeReader] ++
        (pyRange (effectiveSeriesCount f.nativeSeriesCount nrTiles)).map
          (fun i => Event.readPosX i 0) ++
        (pyRange (effectiveSeriesCount f.nativeSeriesCount nrTiles)).map
          (fun i => Event.readPosY i 0) ++
        logPairs
          ((pyRange (effectiveSeriesCount f.nativeSeriesCount nrTiles)).map xs)
          ((pyRange (effectiveSeriesCount f.nativeSeriesCount nrTiles)).map ys)
          (pyRange (effectiveSeriesCount f.nativeSeriesCount nrTiles)),
        true) := by
  have hx := readPositions_all f.meta.getPlanePositionX Event.readPosX xs
    (pyRange (effectiveSeriesCount f.nativeSeriesCount nrTiles))
    (fun i hi => (h i hi).1)
  have hy := readPositions_all f.meta.getPlanePositionY Event.readPosY ys
    (pyRange (effectiveSeriesCount f.nativeSeriesCount nrTiles))
    (fun i hi => (h i hi).2)
  simp [report, hopen, hx, hy]

theorem filterMap_isLog_map (mk : Nat → Nat → Event) (l : List Nat)
    (hmk : ∀ i p, isLog (mk i p) = none) :
    (l.map fun i => mk i 0).filterMap isLog = [] := by
  induction l with
  | nil => rfl
  | cons i rest ih => simp [hmk, ih]

theorem flatMap_getD_range (xs ys : Nat → String) (n : Nat) :
    (List.range n).flatMap
      (fun i => [((List.range n).map xs).getD i "",
                 ((List.range n).map ys).getD i ""]) =
    (List.range n).flatMap (fun i => [xs i, ys i]) := by
  unfold List.flatMap
  apply congrArg
  apply List.map_congr_left
  intro i hi
  rw [getD_map_range xs n i (List.mem_range.mp hi),
    getD_map_range ys n i (List.mem_range.mp hi)]

/-- The log lines of a fully successful run are the interleaving
`xs 0, ys 0, xs 1, ys 1, …` over the effective range. -/
theorem logLines_ok (f : FileModel) (nrTiles : Int) (xs ys : Nat → String)
    (hopen : f.openable = true)
    (h : ∀ i ∈ pyRange (effectiveSeriesCount f.nativeSeriesCount nrTiles),
        f.meta.getPlanePositionX i 0 = some (xs i) ∧
        f.meta.getPlanePositionY i 0 = some (ys i)) :
    logLines f nrTiles =
      (pyRange (effectiveSeriesCount f.nativeSeriesCount nrTiles)).flatMap
        fun i => [xs i, ys i] := by
  unfold logLines
  rw [report_ok f nrTiles xs ys hopen h]
  show List.filterMap isLog _ = _
  rw [List.filterMap_append, List.filterMap_append, List.filterMap_append]
  rw [filterMap_isLog_map Event.readPosX _ (fun i p => rfl),
    filterMap_isLog_map Event.readPosY _ (fun i p => rfl), logPairs_filterMap]
  have h0 : List.filterMap isLog [Event.openFile, Event.closeReader] =
      ([] : List String) := rfl
  rw [h0]
  simp only [List.nil_append]
  exact flatMap_getD_range xs ys _

/-- When the `posX` comprehension hits a failing read, the run stops
there: trace is open, close, the X reads up to the failure; no log
lines. -/
theorem report_failX (f : FileModel) (nrTiles : Int)
    (hopen : f.openable = true)
    (hfail : (readPositions f.meta.getPlanePositionX Event.readPosX
        (pyRange (effectiveSeriesCount f.nativeSeriesCount nrTiles))).2 = none) :
    report f nrTiles =
      ([Event.openFile, Event.closeReader] ++
        (readPositions f.meta.getPlanePositionX Event.readPosX
          (pyRange (effectiveSeriesCount f.nativeSeriesCount nrTiles))).1,
        false) := by
  simp [report, hopen, hfail]

/-- When the `posX` comprehension succeeds but the `posY` comprehension
hits a failing read, the run stops there: no log lines. -/
theorem report_failY (f : FileModel) (nrTiles : Int) (posX : List String)
    (hopen : f.openable = true)
    (hx : (readPositions f.meta.getPlanePositionX Event.readPosX
        (pyRange (effectiveSeriesCount f.nativeSeriesCount nrTiles))).2 = some posX)
    (hy : (readPositions f.meta.getPlanePositionY Event.readPosY
        (pyRange (effectiveSeriesCount f.nativeSeriesCount nrTiles))).2 = none) :
    report f nrTiles =
      ([Event.openFile, Event.closeReader] ++
        (readPositions f.meta.getPlanePositionX Event.readPosX
          (pyRange (effectiveSeriesCount f.nativeSeriesCount nrTiles))).1 ++
        (readPositions f.meta.getPlanePositionY Event.readPosY
          (pyRange (effectiveSeriesCount f.nativeSeriesCount nrTiles))).1,
        false) := by
  simp [report, hopen, hx, hy]

/-- Every event recorded by a comprehension is a read of plane 0 of a
listed series. -/
theorem readPositions_mem (get : Nat → Nat → Option String)
    (mk : Nat → Nat → Event) (l : List Nat) (e : Event)
    (he : e ∈ (readPositions get mk l).1) : ∃ i ∈ l, e = mk i 0 := by
  induction l with
  | nil => simp [readPositions] at he
  | cons i rest ih =>
    cases hget : get i 0 with
    | none =>
      simp [readPositions, hget] at he
      exact ⟨i, List.mem_cons_self i rest, he⟩
    | some v =>
      simp only [readPositions, hget] at he
      rcases List.mem_cons.mp he with rfl | hmem
      · exact ⟨i, List.mem_cons_self i rest, rfl⟩
      · rcases ih hmem with ⟨j, hj, rfl⟩
        exact ⟨j, List.mem_cons_of_mem i hj, rfl⟩

/-- Every event emitted by the final loop is a log line. -/
theorem logPairs_mem (px py : List String) (l : List Nat) (e : Event)
    (he : e ∈ logPairs px py l) : ∃ s, e = Event.logLine s := by
  induction l with
  | nil => simp [logPairs] at he
  | cons i rest ih =>
    simp only [logPairs, List.mem_cons] at he
    rcases he with rfl | rfl | hmem
    · exact ⟨_, rfl⟩
    · exact ⟨_, rfl⟩
    · exact ih hmem

/-- An unreadable path fails at the open step: empty trace, failure. -/
theorem report_not_openable (f : FileModel) (nrTiles : Int)
    (hopen : f.openable = false) : report f nrTiles = ([], false) := by
  simp [report, hopen]

/-- When both comprehensions succeed the run completes, logging at the
end. -/
theorem report_done (f : FileModel) (nrTiles : Int) (posX posY : List String)
    (hopen : f.openable = true)
    (hx : (readPositions f.meta.getPlanePositionX Event.readPosX
        (pyRange (effectiveSeriesCount f.nativeSeriesCount nrTiles))).2 = some posX)
    (hy : (readPositions f.meta.getPlanePositionY Event.readPosY
        (pyRange (effectiveSeriesCount f.nativeSeriesCount nrTiles))).2 = some posY) :
    report f nrTiles =
      ([Event.openFile, Event.closeReader] ++
        (readPositions f.meta.getPlanePositionX Event.readPosX
          (pyRange (effectiveSeriesCount f.nativeSeriesCount nrTiles))).1 ++
        (readPositions f.meta.getPlanePositionY Event.readPosY
          (pyRange (effectiveSeriesCount f.nativeSeriesCount nrTiles))).1 ++
        logPairs posX posY
          (pyRange (effectiveSeriesCount f.nativeSeriesCount nrTiles)),
        true) := by
  simp [report, hopen, hx, hy]

/-- A trace of an opened run starts with the open and the close. -/
theorem report_trace_open (f : FileModel) (nrTiles : Int)
    (hopen : f.openable = true) :
    ∃ rest,
      (report f nrTiles).1 = Event.openFile :: Event.closeReader :: rest := by
  cases hx : (readPositions f.meta.getPlanePositionX Event.readPosX
      (pyRange (effectiveSeriesCount f.nativeSeriesCount nrTiles))).2 with
  | none => rw [report_failX f nrTiles hopen hx]; exact ⟨_, rfl⟩
  | some posX =>
    cases hy : (readPositions f.meta.getPlanePositionY Event.readPosY
        (pyRange (effectiveSeriesCount f.nativeSeriesCount nrTiles))).2 with
    | none => rw [report_failY f nrTiles posX hopen hx hy]; exact ⟨_, rfl⟩
    | some posY => rw [report_done f nrTiles posX posY hopen hx hy]; exact ⟨_, rfl⟩

/-- Branch analysis of a trace: every event is the open, the close, a
plane-0 read of a series in the effective range, or a log line. -/
theorem report_trace_mem (f : FileModel) (nrTiles : Int) (e : Event)
    (he : e ∈ (report f nrTiles).1) :
    e = Event.openFile ∨ e = Event.closeReader ∨
    (∃ i ∈ pyRange (effectiveSeriesCount f.nativeSeriesCount nrTiles),
      e = Event.readPosX i 0 ∨ e = Event.readPosY i 0) ∨
    ∃ s, e = Event.logLine s := by
  by_cases hopen : f.openable = true
  · cases hx : (readPositions f.meta.getPlanePositionX Event.readPosX
        (pyRange (effectiveSeriesCount f.nativeSeriesCount nrTiles))).2 with
    | none =>
      rw [report_failX f nrTiles hopen hx] at he
      rcases List.mem_append.mp he with h12 | hr
      · rcases List.mem_cons.mp h12 with rfl | h2
        · exact Or.inl rfl
        · rcases List.mem_cons.mp h2 with rfl | h3
          · exact Or.inr (Or.inl rfl)
          · simp at h3
      · rcases readPositions_mem _ _ _ _ hr with ⟨i, hi, rfl⟩
        exact Or.inr (Or.inr (Or.inl ⟨i, hi, Or.inl rfl⟩))
    | some posX =>
      cases hy : (readPositions f.meta.getPlanePositionY Event.readPosY
          (pyRange (effectiveSeriesCount f.nativeSeriesCount nrTiles))).2 with
      | none =>
        rw [report_failY f nrTiles posX hopen hx hy] at he
        rcases List.mem_append.mp he with h12r | hr
        · rcases List.mem_append.mp h12r with h12 | hr
          · rcases List.mem_cons.mp h12 with rfl | h2
            · exact Or.inl rfl
            · rcases List.mem_cons.mp h2 with rfl | h3
              · exact Or.inr (Or.inl rfl)
              · simp at h3
          · rcases readPositions_mem _ _ _ _ hr with ⟨i, hi, rfl⟩
            exact Or.inr (Or.inr (Or.inl ⟨i, hi, Or.inl rfl⟩))
        · rcases readPositions_mem _ _ _ _ hr with ⟨i, hi, rfl⟩
          exact Or.inr (Or.inr (Or.inl ⟨i, hi, Or.inr rfl⟩))
      | some posY =>
        rw [report_done f nrTiles posX posY hopen hx hy] at he
        rcases List.mem_append.mp he with h12ry | hl
        · rcases List.mem_append.mp h12ry with h12r | hr
          · rcases List.mem_append.mp h12r with h12 | hr
            · rcases List.mem_cons.mp h12 with rfl | h2
              · exact Or.inl rfl
              · rcases List.mem_cons.mp h2 with rfl | h3
                · exact Or.inr (Or.inl rfl)
                · simp at h3
            · rcases readPositions_mem _ _ _ _ hr with ⟨i, hi, rfl⟩
              exact Or.inr (Or.inr (Or.inl ⟨i, hi, Or.inl rfl⟩))
          · rcases readPositions_mem _ _ _ _ hr with ⟨i, hi, rfl⟩
            exact Or.inr (Or.inr (Or.inl ⟨i, hi, Or.inr rfl⟩))
        · rcases logPairs_mem _ _ _ _ hl with ⟨s, rfl⟩
          exact Or.inr (Or.inr (Or.inr ⟨s, rfl⟩))
  · rw [report_not_openable f nrTiles (by simpa using hopen)] at he
    simp at he

theorem length_flatMap_pair (xs ys : Nat → String) (l : List Nat) :
    (l.flatMap fun i => [xs i, ys i]).length = 2 * l.length := by
  induction l with
  | nil => rfl
  | cons i rest ih =>
    simp only [List.flatMap_cons, List.length_append, ih, List.length_cons]
    simp only [List.length_cons, List.length_nil]
    omega

theorem flatMap_pair_get (xs ys : Nat → String) (l : List Nat) (k : Nat)
    (hk : k < l.length) :
    (l.flatMap fun i => [xs i, ys i])[2 * k]? = some (xs (l.get ⟨k, hk⟩)) ∧
    (l.flatMap fun i => [xs i, ys i])[2 * k + 1]? = some (ys (l.get ⟨k, hk⟩)) := by
  induction l generalizing k with
  | nil => simp at hk
  | cons i rest ih =>
    cases k with
    | zero => simp [List.flatMap_cons]
    | succ k =>
      have hk' : k < rest.length := by simpa using hk
      have hrec := ih k hk'
      have h2 : 2 * (k + 1) = 2 * k + 1 + 1 := by ring
      constructor
      · rw [h2]
        show (xs i :: ys i ::
          (rest.flatMap fun j => [xs j, ys j]))[2 * k + 1 + 1]? = _
        rw [List.getElem?_cons_succ, List.getElem?_cons_succ]
        exact hrec.1
      · rw [h2]
        show (xs i :: ys i ::
          (rest.flatMap fun j => [xs j, ys j]))[2 * k + 1 + 1 + 1]? = _
        rw [List.getElem?_cons_succ, List.getElem?_cons_succ]
        exact hrec.2

/-- C2: the effective `seriesCount` is the reader's native series count
when `nrTiles = -1`, and `nrTiles` itself otherwise — with no bounds
validation of `nrTiles` against the file's actual series count (the
override is taken verbatim, whatever `native` is). -/
theorem c2_effective_series_count (native : Nat) (nrTiles : Int) :
    (nrTiles = -1 → effectiveSeriesCount native nrTiles = (native : Int)) ∧
    (nrTiles ≠ -1 → effectiveSeriesCount native nrTiles = nrTiles) := by
  constructor <;> intro h <;> simp [effectiveSeriesCount, h]

theorem c2_effective_series_count_witness :
    effectiveSeriesCount 3 (-1) = 3 ∧ effectiveSeriesCount 3 7 = 7 :=
  ⟨(c2_effective_series_count 3 (-1)).1 rfl,
    (c2_effective_series_count 3 7).2 (by decide)⟩

/-- C7: a path the reader cannot open fails at the open step and emits
zero log lines — an open failure never produces partial output. -/
theorem c7_open_failure_no_output (f : FileModel) (nrTiles : Int)
    (hopen : f.openable = false) :
    (report f nrTiles).2 = false ∧ logLines f nrTiles = [] := by
  have hrep := report_not_openable f nrTiles hopen
  exact ⟨by rw [hrep], by unfold logLines; rw [hrep]; rfl⟩

theorem c7_open_failure_no_output_witness :
    (report badFile 5).2 = false ∧ logLines badFile 5 = [] :=
  c7_open_failure_no_output badFile 5 rfl

/-- C10: with an openable file and any `nrTiles < -1`, the run succeeds
and emits zero log lines: the negative override makes the iteration
range empty, so no metadata is read and no error is raised. -/
theorem c10_negative_override_empty (f : FileModel) (nrTiles : Int)
    (hopen : f.openable = true) (hneg : nrTiles < -1) :
    (report f nrTiles).2 = true ∧ logLines f nrTiles = [] ∧
    ∀ e ∈ (report f nrTiles).1, isRead e = false := by
  have hrange : pyRange (effectiveSeriesCount f.nativeSeriesCount nrTiles) =
      [] := by
    have hne : nrTiles ≠ -1 := by omega
    simp [effectiveSeriesCount, hne, pyRange,
      Int.toNat_eq_zero.mpr (by omega : nrTiles ≤ 0)]
  have hx : (readPositions f.meta.getPlanePositionX Event.readPosX
      (pyRange (effectiveSeriesCount f.nativeSeriesCount nrTiles))).2 =
      some [] := by rw [hrange]; rfl
  have hy : (readPositions f.meta.getPlanePositionY Event.readPosY
      (pyRange (effectiveSeriesCount f.nativeSeriesCount nrTiles))).2 =
      some [] := by rw [hrange]; rfl
  have hrep := report_done f nrTiles [] [] hopen hx hy
  rw [hrange] at hrep
  refine ⟨by rw [hrep], by unfold logLines; rw [hrep]; rfl, ?_⟩
  intro e he
  rw [hrep] at he
  rcases List.mem_append.mp he with h3 | hl
  · rcases List.mem_append.mp h3 with h2 | hr
    · rcases List.mem_append.mp h2 with h1 | hr
      · rcases List.mem_cons.mp h1 with rfl | h0
        · rfl
        · rcases List.mem_cons.mp h0 with rfl | h0
          · rfl
          · simp at h0
      · simp [readPositions] at hr
    · simp [readPositions] at hr
  · simp [logPairs] at hl

theorem c10_negative_override_empty_witness :
    (report demoFile (-5)).2 = true ∧ logLines demoFile (-5) = [] ∧
    ∀ e ∈ (report demoFile (-5)).1, isRead e = false :=
  c10_negative_override_empty demoFile (-5) rfl (by decide)

/-- C8: on the fixed synthetic three-series store mapping series
`0, 1, 2` to `(1.0, 2.0)`, `(3.0, 4.0)`, `(5.0, 6.0)`, a run with
`nrTiles = -1` logs exactly `1.0, 2.0, 3.0, 4.0, 5.0, 6.0`, in that
order. -/
theorem c8_demo_output :
    logLines demoFile (-1) = ["1.0", "2.0", "3.0", "4.0", "5.0", "6.0"] := by
  rfl

/-- C1: for a file whose metadata store holds positions for its `N`
series, a run with `nrTiles = -1` emits exactly `2N` log lines, in the
order `posX[0], posY[0], posX[1], posY[1], …, posX[N-1], posY[N-1]`. -/
theorem c1_neg_one_logs_all_series (f : FileModel) (xs ys : Nat → String)
    (hopen : f.openable = true)
    (hpos : holdsPositions f.meta f.nativeSeriesCount xs ys) :
    logLines f (-1) =
      (List.range f.nativeSeriesCount).flatMap (fun i => [xs i, ys i]) ∧
    (logLines f (-1)).length = 2 * f.nativeSeriesCount := by
  have hrange : pyRange (effectiveSeriesCount f.nativeSeriesCount (-1)) =
      List.range f.nativeSeriesCount := by
    simp [effectiveSeriesCount, pyRange]
  have h : ∀ i ∈ pyRange (effectiveSeriesCount f.nativeSeriesCount (-1)),
      f.meta.getPlanePositionX i 0 = some (xs i) ∧
      f.meta.getPlanePositionY i 0 = some (ys i) := by
    intro i hi
    rw [hrange] at hi
    exact hpos i (List.mem_range.mp hi)
  have hlog := logLines_ok f (-1) xs ys hopen h
  rw [hrange] at hlog
  refine ⟨hlog, ?_⟩
  rw [hlog, length_flatMap_pair, List.length_range]

theorem c1_neg_one_logs_all_series_witness :
    demoFile.openable = true ∧
    holdsPositions demoFile.meta demoFile.nativeSeriesCount
      (fun i => ["1.0", "3.0", "5.0"].getD i "")
      (fun i => ["2.0", "4.0", "6.0"].getD i "") ∧
    logLines demoFile (-1) =
      (List.range demoFile.nativeSeriesCount).flatMap
        (fun i => [["1.0", "3.0", "5.0"].getD i "",
                   ["2.0", "4.0", "6.0"].getD i ""]) ∧
    (logLines demoFile (-1)).length = 2 * demoFile.nativeSeriesCount := by
  have hpos : holdsPositions demoFile.meta demoFile.nativeSeriesCount
      (fun i => ["1.0", "3.0", "5.0"].getD i "")
      (fun i => ["2.0", "4.0", "6.0"].getD i "") := by
    intro i hi
    have hi3 : i < 3 := hi
    interval_cases i <;> exact ⟨rfl, rfl⟩
  exact ⟨rfl, hpos, c1_neg_one_logs_all_series demoFile _ _ rfl hpos⟩

/-- C3: for a file whose metadata store holds positions for its `N`
series and any `k` with `0 ≤ k ≤ N`, a run with `nrTiles = k` emits
exactly `2k` log lines, covering only series `0 … k-1`. -/
theorem c3_partial_override_logs_k (f : FileModel) (xs ys : Nat → String)
    (k : Nat)
    (hopen : f.openable = true) (hk : k ≤ f.nativeSeriesCount)
    (hpos : holdsPositions f.meta f.nativeSeriesCount xs ys) :
    logLines f (k : Int) = (List.range k).flatMap (fun i => [xs i, ys i]) ∧
    (logLines f (k : Int)).length = 2 * k := by
  have hne : (k : Int) ≠ -1 := by omega
  have hrange : pyRange (effectiveSeriesCount f.nativeSeriesCount (k : Int)) =
      List.range k := by
    simp [effectiveSeriesCount, hne, pyRange]
  have h : ∀ i ∈ pyRange (effectiveSeriesCount f.nativeSeriesCount (k : Int)),
      f.meta.getPlanePositionX i 0 = some (xs i) ∧
      f.meta.getPlanePositionY i 0 = some (ys i) := by
    intro i hi
    rw [hrange] at hi
    exact hpos i (Nat.lt_of_lt_of_le (List.mem_range.mp hi) hk)
  have hlog := logLines_ok f (k : Int) xs ys hopen h
  rw [hrange] at hlog
  refine ⟨hlog, ?_⟩
  rw [hlog, length_flatMap_pair, List.length_range]

theorem c3_partial_override_logs_k_witness :
    (2 : Nat) ≤ demoFile.nativeSeriesCount ∧
    holdsPositions demoFile.meta demoFile.nativeSeriesCount
      (fun i => ["1.0", "3.0", "5.0"].getD i "")
      (fun i => ["2.0", "4.0", "6.0"].getD i "") ∧
    logLines demoFile ((2 : Nat) : Int) =
      (List.range 2).flatMap
        (fun i => [["1.0", "3.0", "5.0"].getD i "",
                   ["2.0", "4.0", "6.0"].getD i ""]) ∧
    (logLines demoFile ((2 : Nat) : Int)).length = 2 * 2 := by
  have hpos : holdsPositions demoFile.meta demoFile.nativeSeriesCount
      (fun i => ["1.0", "3.0", "5.0"].getD i "")
      (fun i => ["2.0", "4.0", "6.0"].getD i "") := by
    intro i hi
    have hi3 : i < 3 := hi
    interval_cases i <;> exact ⟨rfl, rfl⟩
  exact ⟨by decide, hpos,
    c3_partial_override_logs_k demoFile _ _ 2 rfl (by decide) hpos⟩

/-- C4: for a file with `N` series (positions absent beyond series
`N-1`) and any `k > N`, a run with `nrTiles = k` fails with an
out-of-range read while reading position metadata — after the file was
opened and the reader closed — and emits zero log lines: it never
silently truncates to `N` series. -/
theorem c4_override_beyond_series_fails (f : FileModel) (k : Nat)
    (hopen : f.openable = true) (hk : f.nativeSeriesCount < k)
    (hout : ∀ i, f.nativeSeriesCount ≤ i →
      f.meta.getPlanePositionX i 0 = none) :
    (report f (k : Int)).2 = false ∧ logLines f (k : Int) = [] ∧
    Event.closeReader ∈ (report f (k : Int)).1 := by
  have hne : (k : Int) ≠ -1 := by omega
  have hrange : pyRange (effectiveSeriesCount f.nativeSeriesCount (k : Int)) =
      List.range k := by
    simp [effectiveSeriesCount, hne, pyRange]
  have hfail : (readPositions f.meta.getPlanePositionX Event.readPosX
      (pyRange (effectiveSeriesCount f.nativeSeriesCount (k : Int)))).2 =
      none := by
    apply readPositions_fail
    exact ⟨f.nativeSeriesCount, by rw [hrange]; exact List.mem_range.mpr hk,
      hout _ Nat.le.refl⟩
  have hrep := report_failX f (k : Int) hopen hfail
  refine ⟨by rw [hrep], ?_, ?_⟩
  · unfold logLines
    rw [hrep]
    show List.filterMap isLog _ = _
    rw [List.filterMap_append,
      readPositions_no_log _ Event.readPosX _ (fun i p => rfl)]
    rfl
  · rw [hrep]
    simp

theorem c4_override_beyond_series_fails_witness :
    demoFile.nativeSeriesCount < 5 ∧
    (∀ i, demoFile.nativeSeriesCount ≤ i →
      demoFile.meta.getPlanePositionX i 0 = none) ∧
    (report demoFile ((5 : Nat) : Int)).2 = false ∧
    logLines demoFile ((5 : Nat) : Int) = [] ∧
    Event.closeReader ∈ (report demoFile ((5 : Nat) : Int)).1 := by
  have hout : ∀ i, demoFile.nativeSeriesCount ≤ i →
      demoFile.meta.getPlanePositionX i 0 = none := by
    intro i hi
    have hi3 : (3 : Nat) ≤ i := hi
    cases i with
    | zero => omega
    | succ i =>
      cases i with
      | zero => omega
      | succ i =>
        cases i with
        | zero => omega
        | succ i => rfl
  have h := c4_override_beyond_series_fails demoFile 5 rfl (by decide) hout
  exact ⟨by decide, hout, h.1, h.2.1, h.2.2⟩

/-- C9: if reading any position value from the metadata store fails
(missing/null field or out-of-range series index), the run fails and
emits zero log lines: both position lists are built before the first
log line, so metadata-read failures are all-or-nothing. -/
theorem c9_metadata_failure_all_or_nothing (f : FileModel) (nrTiles : Int)
    (hopen : f.openable = true)
    (hfail : ∃ i ∈ pyRange (effectiveSeriesCount f.nativeSeriesCount nrTiles),
      f.meta.getPlanePositionX i 0 = none ∨
      f.meta.getPlanePositionY i 0 = none) :
    (report f nrTiles).2 = false ∧ logLines f nrTiles = [] := by
  by_cases hX : ∃ i ∈ pyRange (effectiveSeriesCount f.nativeSeriesCount
      nrTiles), f.meta.getPlanePositionX i 0 = none
  · have hfx := readPositions_fail f.meta.getPlanePositionX Event.readPosX _ hX
    have hrep := report_failX f nrTiles hopen hfx
    refine ⟨by rw [hrep], ?_⟩
    unfold logLines
    rw [hrep]
    show List.filterMap isLog _ = _
    rw [List.filterMap_append,
      readPositions_no_log _ Event.readPosX _ (fun i p => rfl)]
    rfl
  · push_neg at hX
    have hXs : ∀ i ∈ pyRange (effectiveSeriesCount f.nativeSeriesCount
        nrTiles), f.meta.getPlanePositionX i 0 =
          some ((f.meta.getPlanePositionX i 0).getD "") := by
      intro i hi
      cases hgi : f.meta.getPlanePositionX i 0 with
      | none => exact absurd hgi (hX i hi)
      | some v => rfl
    have hx := readPositions_all f.meta.getPlanePositionX Event.readPosX
      (fun i => (f.meta.getPlanePositionX i 0).getD "") _ hXs
    have hx2 : (readPositions f.meta.getPlanePositionX Event.readPosX
        (pyRange (effectiveSeriesCount f.nativeSeriesCount nrTiles))).2 =
        some ((pyRange (effectiveSeriesCount f.nativeSeriesCount
          nrTiles)).map fun i => (f.meta.getPlanePositionX i 0).getD "") := by
      rw [hx]
    have hYex : ∃ i ∈ pyRange (effectiveSeriesCount f.nativeSeriesCount
        nrTiles), f.meta.getPlanePositionY i 0 = none := by
      rcases hfail with ⟨i, hi, hnone | hnone⟩
      · exact absurd hnone (hX i hi)
      · exact ⟨i, hi, hnone⟩
    have hfy := readPositions_fail f.meta.getPlanePositionY Event.readPosY _
      hYex
    have hrep := report_failY f nrTiles _ hopen hx2 hfy
    refine ⟨by rw [hrep], ?_⟩
    unfold logLines
    rw [hrep]
    show List.filterMap isLog _ = _
    rw [List.filterMap_append, List.filterMap_append,
      readPositions_no_log _ Event.readPosX _ (fun i p => rfl),
      readPositions_no_log _ Event.readPosY _ (fun i p => rfl)]
    rfl

theorem c9_metadata_failure_all_or_nothing_witness :
    (∃ i ∈ pyRange (effectiveSeriesCount failFile.nativeSeriesCount (-1)),
      failFile.meta.getPlanePositionX i 0 = none ∨
      failFile.meta.getPlanePositionY i 0 = none) ∧
    (report failFile (-1)).2 = false ∧ logLines failFile (-1) = [] := by
  have hfail : ∃ i ∈ pyRange (effectiveSeriesCount
      failFile.nativeSeriesCount (-1)),
      failFile.meta.getPlanePositionX i 0 = none ∨
      failFile.meta.getPlanePositionY i 0 = none := by
    refine ⟨1, by decide, Or.inr rfl⟩
  exact ⟨hfail, c9_metadata_failure_all_or_nothing failFile (-1) rfl hfail⟩

/-- C5: for every series index `i` that is read, the pair emitted for
series `i` is exactly `(planePositionX(i,0), planePositionY(i,0))` — at
log positions `2i` and `2i+1` — and every metadata read in the trace is
of plane index 0, never any other plane. -/
theorem c5_pair_from_plane_zero (f : FileModel) (nrTiles : Int)
    (xs ys : Nat → String) (i : Nat)
    (hopen : f.openable = true)
    (h : ∀ j ∈ pyRange (effectiveSeriesCount f.nativeSeriesCount nrTiles),
        f.meta.getPlanePositionX j 0 = some (xs j) ∧
        f.meta.getPlanePositionY j 0 = some (ys j))
    (hi : i ∈ pyRange (effectiveSeriesCount f.nativeSeriesCount nrTiles)) :
    (logLines f nrTiles)[2 * i]? = some (xs i) ∧
    (logLines f nrTiles)[2 * i + 1]? = some (ys i) ∧
    ∀ e ∈ (report f nrTiles).1, isRead e = true →
      ∃ j, e = Event.readPosX j 0 ∨ e = Event.readPosY j 0 := by
  have hlog := logLines_ok f nrTiles xs ys hopen h
  have hlen : i <
      (pyRange (effectiveSeriesCount f.nativeSeriesCount nrTiles)).length := by
    simpa [pyRange] using List.mem_range.mp hi
  have hget := flatMap_pair_get xs ys _ i hlen
  have hgi : (pyRange
      (effectiveSeriesCount f.nativeSeriesCount nrTiles)).get ⟨i, hlen⟩ = i := by
    rw [List.get_eq_getElem]
    exact List.getElem_range i hlen
  rw [hgi] at hget
  refine ⟨by rw [hlog]; exact hget.1, by rw [hlog]; exact hget.2, ?_⟩
  intro e he hr
  rcases report_trace_mem f nrTiles e he with
    rfl | rfl | ⟨j, hj, rfl | rfl⟩ | ⟨s, rfl⟩
  · simp [isRead] at hr
  · simp [isRead] at hr
  · exact ⟨j, Or.inl rfl⟩
  · exact ⟨j, Or.inr rfl⟩
  · simp [isRead] at hr

theorem c5_pair_from_plane_zero_witness :
    (∀ j ∈ pyRange (effectiveSeriesCount demoFile.nativeSeriesCount (-1)),
      demoFile.meta.getPlanePositionX j 0 =
        some (["1.0", "3.0", "5.0"].getD j "") ∧
      demoFile.meta.getPlanePositionY j 0 =
        some (["2.0", "4.0", "6.0"].getD j "")) ∧
    (logLines demoFile (-1))[2 * 1]? = some "3.0" ∧
    (logLines demoFile (-1))[2 * 1 + 1]? = some "4.0" ∧
    ∀ e ∈ (report demoFile (-1)).1, isRead e = true →
      ∃ j, e = Event.readPosX j 0 ∨ e = Event.readPosY j 0 := by
  have h : ∀ j ∈ pyRange (effectiveSeriesCount demoFile.nativeSeriesCount
      (-1)),
      demoFile.meta.getPlanePositionX j 0 =
        some (["1.0", "3.0", "5.0"].getD j "") ∧
      demoFile.meta.getPlanePositionY j 0 =
        some (["2.0", "4.0", "6.0"].getD j "") := by decide
  have hc := c5_pair_from_plane_zero demoFile (-1) _ _ 1 rfl h (by decide)
  exact ⟨h, hc.1, hc.2.1, hc.2.2⟩

/-- C6: in every run, the reader's close happens strictly before any
metadata-value read from the store: every read event in the trace is
preceded by the close event. -/
theorem c6_close_before_reads (f : FileModel) (nrTiles : Int) (k : Nat)
    (e : Event)
    (hk : (report f nrTiles).1[k]? = some e) (hread : isRead e = true) :
    ∃ j, j < k ∧ (report f nrTiles).1[j]? = some Event.closeReader := by
  by_cases hopen : f.openable = true
  · rcases report_trace_open f nrTiles hopen with ⟨rest, htr⟩
    rw [htr] at hk ⊢
    rcases k with _ | _ | j
    · rw [List.getElem?_cons_zero] at hk
      injection hk with hk
      rw [← hk] at hread
      simp [isRead] at hread
    · rw [List.getElem?_cons_succ, List.getElem?_cons_zero] at hk
      injection hk with hk
      rw [← hk] at hread
      simp [isRead] at hread
    · refine ⟨1, by omega, ?_⟩
      rw [List.getElem?_cons_succ, List.getElem?_cons_zero]
  · rw [report_not_openable f nrTiles (by simpa using hopen)] at hk
    simp at hk

theorem c6_close_before_reads_witness :
    (report demoFile (-1)).1[2]? = some (Event.readPosX 0 0) ∧
    isRead (Event.readPosX 0 0) = true ∧
    ∃ j, j < 2 ∧ (report demoFile (-1)).1[j]? = some Event.closeReader :=
  ⟨rfl, rfl,
    c6_close_before_reads demoFile (-1) 2 (Event.readPosX 0 0) rfl rfl⟩
